import Mathlib

set_option maxRecDepth 8192

/-!
Verification of the `video-tools` repository (tools/merge_vid.py and
tools/rotate_vid.py) against its natural-language specification.

The Python source is shallowly embedded: pure helpers become Lean
functions over `String` / `List Char`; the subprocess boundary (ffmpeg /
ffprobe) is abstracted by oracles giving each external invocation's
outcome; the filesystem effects that the claims mention (the concat
manifest temp file, unlink calls) are tracked explicitly in the result
of the orchestrator model.

Conventions:
- Python `str.lower()` / `str.strip()` / `str.endswith` are modelled
  character-wise over `String.data` (the inputs involved are ASCII).
- Python truthiness of a string (`if s:`) is modelled as `s ≠ ""`,
  and of an `Optional[str]` as "present and non-empty".
- The single-quote character is written `sqc` (`Char.ofNat 39`).
-/

/-- The single-quote character (code point 39). -/
def sqc : Char := Char.ofNat 39

/-- Python `str.lower()` (character-wise, ASCII). -/
def lowerStr (s : String) : String := String.mk (s.data.map Char.toLower)

/-- Python `str.endswith(t)`. -/
def endsWithStr (s t : String) : Bool := List.isSuffixOf t.data s.data

/-- Python `str.strip()` (removes leading and trailing whitespace). -/
def stripStr (s : String) : String :=
  String.mk (((s.data.dropWhile Char.isWhitespace).reverse.dropWhile Char.isWhitespace).reverse)

/-- `codec.lower().endswith("_nvenc")`, the hardware-codec test used
throughout `merge_vid.py`. -/
def nvencCodec (codec : String) : Bool := endsWithStr (lowerStr codec) "_nvenc"

/-- A probed or requested output resolution: `(width, height)`. -/
abbrev Resolution := Nat × Nat

/-- Python truthiness of an `Optional[str]`: present and non-empty. -/
def truthyOptStr : Option String → Bool
  | some e => e != ""
  | none => false

/-- `resolve_preset` (merge_vid.py lines 100-105): an explicit truthy
preset wins; otherwise NVENC codecs default to "p4", others to none. -/
def resolve_preset (codec : String) (explicit : Option String) : Option String :=
  if truthyOptStr explicit then explicit
  else if nvencCodec codec then some "p4"
  else none

/-- `normalize_fallback_codec` (merge_vid.py lines 108-114): `None`,
and the sentinels "", "none", "false", "off" (case-insensitively,
after stripping) disable the fallback. -/
def normalize_fallback_codec (value : Option String) : Option String :=
  match value with
  | none => none
  | some v =>
    let lowered := lowerStr (stripStr v)
    if lowered = "" ∨ lowered = "none" ∨ lowered = "false" ∨ lowered = "off" then none
    else some v

/-- Decimal digits of `n`, left-padded with zeros to width 6 (used for
the fractional part of the formatted aspect ratio). -/
def padZeros6 (n : Nat) : String :=
  let s := toString n
  String.mk (List.replicate (6 - s.length) '0') ++ s

/-- Model of the Python f-string `f"{width / height:.6f}"`: the
quotient formatted with six decimal places, rounding half to even.
(The source computes this through IEEE double division; the rational
model agrees on the values the program feeds it, e.g. 1920/1080.) -/
def fmtAspect6 (width height : Nat) : String :=
  let num := width * 1000000
  let q := num / height
  let r := num % height
  let rounded :=
    if height < 2 * r then q + 1
    else if 2 * r < height then q
    else if q % 2 = 1 then q + 1 else q
  toString (rounded / 1000000) ++ "." ++ padZeros6 (rounded % 1000000)

/-- The `pad=` filter element of `build_resize_filter`. -/
def padFilter (width height : Nat) : String :=
  "pad=" ++ toString width ++ ":" ++ toString height ++ ":(ow-iw)/2:(oh-ih)/2"

/-- The `scale_cuda=` filter element of `build_resize_filter`
(hardware path). Written with `sqc` for the single quotes of the
original f-string. -/
def cudaScaleFilter (width height : Nat) : String :=
  "scale_cuda=w=" ++ String.mk [sqc] ++ "if(gt(iw/ih," ++ fmtAspect6 width height ++ ")," ++
    toString width ++ ",-2)" ++ String.mk [sqc] ++ ":h=" ++ String.mk [sqc] ++
    "if(gt(iw/ih," ++ fmtAspect6 width height ++ "),-2," ++ toString height ++ ")" ++ String.mk [sqc]

/-- The full hardware filter graph: `",".join([...])` of the six
elements, written as the resulting concatenation. -/
def cudaFilterGraph (width height : Nat) : String :=
  cudaScaleFilter width height ++ "," ++ "hwdownload" ++ "," ++ "format=nv12" ++ "," ++
    padFilter width height ++ "," ++ "format=yuv420p" ++ "," ++ "setsar=1"

/-- The full software filter graph: `",".join([...])` of its three
elements. -/
def swFilterGraph (width height : Nat) : String :=
  ("scale=" ++ toString width ++ ":" ++ toString height ++ ":force_original_aspect_ratio=decrease")
    ++ "," ++ padFilter width height ++ "," ++ "setsar=1"

/-- `build_resize_filter` (merge_vid.py lines 210-240): returns the
filter graph (or `none` when no target resolution) and whether the
graph needs device-resident frames. -/
def build_resize_filter (resolution : Option Resolution) (use_cuda_scale : Bool) :
    Option String × Bool :=
  match resolution with
  | none => (none, false)
  | some (width, height) =>
    if use_cuda_scale then (some (cudaFilterGraph width height), true)
    else (some (swFilterGraph width height), false)

/-- `build_ffmpeg_command` (merge_vid.py lines 243-291). -/
def build_ffmpeg_command (concat_file : String) (output_path : String) (codec : String)
    (preset : Option String) (resolution : Option Resolution) (use_cuda_scale : Bool) :
    List String :=
  let use_cuda_codec := nvencCodec codec
  let fr := build_resize_filter resolution use_cuda_scale
  let filter_graph := fr.1
  let needs_hw_frames := use_cuda_codec && fr.2
  ["ffmpeg", "-y", "-hide_banner", "-loglevel", "info"]
  ++ (if use_cuda_codec then ["-hwaccel", "cuda"] else [])
  ++ (if needs_hw_frames then ["-hwaccel_output_format", "cuda"] else [])
  ++ ["-f", "concat", "-safe", "0", "-i", concat_file, "-c:v", codec]
  ++ (match preset with
      | some p => if p = "" then [] else ["-preset", p]
      | none => [])
  ++ (match filter_graph with
      | some fg => if fg = "" then [] else ["-vf", fg]
      | none => [])
  ++ (if use_cuda_codec then [] else ["-pix_fmt", "yuv420p"])
  ++ ["-c:a", "copy", output_path]

/-- `derive_output_path` (merge_vid.py lines 338-339): output folder
joined with the input folder's name plus ".mp4". -/
def derive_output_path (inputFolderName outputFolder : String) : String :=
  outputFolder ++ "/" ++ (inputFolderName ++ ".mp4")

/-! ## Path catalog (find_numbered_videos and friends) -/

/-- A directory entry as `merge_vid.py` sees it: `Path.stem`, the
extension `Path.suffix` (with its leading dot) and whether the entry is
a regular file. The full filename is `stem ++ ext`. -/
structure Entry where
  stem : String
  ext : String
  isFile : Bool
deriving DecidableEq

/-- `Path.name`: filename including the extension. -/
def Entry.name (e : Entry) : String := e.stem ++ e.ext

/-- `VIDEO_EXTENSIONS` (merge_vid.py lines 18-30). -/
def VIDEO_EXTENSIONS : List String :=
  [".mp4", ".mov", ".mkv", ".avi", ".m4v", ".webm", ".mpg", ".mpeg", ".mts", ".m2ts", ".ts"]

/-- Fuel-indexed scanner for the regex matches; the fuel (an upper
bound on the remaining input length) only makes the recursion
structural and never runs out when it starts at the input's length,
since the scanner always continues on a suffix of its input. -/
def seqMatchesGo : Nat → List Char → List (List Char)
  | 0, _ => []
  | _, [] => []
  | fuel + 1, c :: rest =>
    if c = '0' then
      let ds := rest.takeWhile Char.isDigit
      if 3 ≤ ds.length then ('0' :: ds) :: seqMatchesGo fuel (rest.dropWhile Char.isDigit)
      else seqMatchesGo fuel rest
    else seqMatchesGo fuel rest

/-- All matches of the regex `(0\d...)` — a literal zero followed by at
least three more digits, greedy, non-overlapping, scanning left to
right — as `re.findall` produces them (`SEQUENCE_REGEX.findall`). -/
def seqMatches (l : List Char) : List (List Char) :=
  seqMatchesGo l.length l

/-- Python `int` on a run of decimal digits. -/
def natOfDigits (ds : List Char) : Nat :=
  ds.foldl (fun acc c => 10 * acc + (c.toNat - 48)) 0

/-- `extract_sequence_number` (merge_vid.py lines 176-183): the integer
value of the last regex match in the stem, or `none`. -/
def extract_sequence_number (stem : String) : Option Nat :=
  match (seqMatches stem.data).getLast? with
  | none => none
  | some m => some (natOfDigits m)

/-- Python string comparison (lexicographic by code point), as used by
`sorted(...)` and tuple sort keys. -/
def strLe : List Char → List Char → Bool
  | [], _ => true
  | _ :: _, [] => false
  | x :: xs, y :: ys =>
    if x.toNat = y.toNat then strLe xs ys else decide (x.toNat < y.toNat)

/-- Order in which `sorted(folder.iterdir())` yields the entries:
by filename. -/
def iterOrder (a b : Entry) : Prop := strLe a.name.data b.name.data = true

instance : DecidableRel iterOrder := fun a b => by
  unfold iterOrder; infer_instance

/-- The sort key relation of `matches.sort(key=lambda item: (item[0],
item[1].name))`: sequence number first, filename as tie-break. -/
def pairKeyLe (p q : Nat × Entry) : Prop :=
  p.1 < q.1 ∨ (p.1 = q.1 ∧ strLe p.2.name.data q.2.name.data = true)

instance : DecidableRel pairKeyLe := fun p q => by
  unfold pairKeyLe; infer_instance

/-- The loop body of `find_numbered_videos` (merge_vid.py lines
188-196): skip non-files, unknown extensions and untagged stems
(each `continue` returns `none`), else yield `(number, entry)`. -/
def catalogStep (e : Entry) : Option (Nat × Entry) :=
  if e.isFile then
    if VIDEO_EXTENSIONS.contains (lowerStr e.ext) then
      match extract_sequence_number e.stem with
      | some n => some (n, e)
      | none => none
    else none
  else none

/-- `find_numbered_videos` (merge_vid.py lines 186-198): iterate the
folder in name order, keep regular files with a known video extension
and a sequence tag, then sort by (tag, name). `list.sort` (stable) is
modelled by the stable `insertionSort`. -/
def find_numbered_videos (entries : List Entry) : List Entry :=
  let ordered := List.insertionSort iterOrder entries
  let tagged := ordered.filterMap catalogStep
  (List.insertionSort pairKeyLe tagged).map (fun p => p.2)

/-! ## Concat manifest (build_concat_file) -/

/-- The escaping `str(video).replace(squote, squote backslash squote
squote)` of `build_concat_file`, character-wise. -/
def escapeSQ : List Char → List Char
  | [] => []
  | c :: rest =>
    if c = sqc then sqc :: '\\' :: sqc :: sqc :: escapeSQ rest
    else c :: escapeSQ rest

/-- The chunk written for one video: `f"file '...'\n"`. -/
def concatLineChars (video : String) : List Char :=
  "file ".data ++ [sqc] ++ escapeSQ video.data ++ [sqc] ++ ['\n']

/-- `build_concat_file` (merge_vid.py lines 201-207): the sequence of
chunks written to the manifest, one per video, in catalog order. -/
def build_concat_file (videos : List String) : List (List Char) :=
  videos.map concatLineChars

/-- The manifest file's full content: the chunks concatenated. -/
def concat_file_content (videos : List String) : List Char :=
  (build_concat_file videos).flatten

/-- Lines of a newline-terminated text file: `'\n'` acts as a line
terminator; a final unterminated run of characters also forms a line. -/
def linesOf : List Char → List (List Char)
  | [] => []
  | c :: rest =>
    if c = '\n' then [] :: linesOf rest
    else
      match linesOf rest with
      | [] => [[c]]
      | l :: ls => (c :: l) :: ls

/-! ## Resolution probing (detect_uniform_resolution) -/

/-- Loop body of `detect_uniform_resolution` (merge_vid.py lines
162-173), with an instrumentation counter recording how many videos
were probed (each loop iteration probes exactly one video, in list
order). -/
def detectGo {α : Type} (probe : α → Resolution) :
    Option Resolution → List α → Nat → Option Resolution × Nat
  | reference, [], probed => (reference, probed)
  | reference, v :: vs, probed =>
    let current := probe v
    match reference with
    | none => detectGo probe (some current) vs (probed + 1)
    | some r => if current = r then detectGo probe (some r) vs (probed + 1) else (none, probed + 1)

/-- `detect_uniform_resolution`: the common resolution of all videos,
or `none` on the first mismatch; second component counts probe calls. -/
def detect_uniform_resolution {α : Type} (probe : α → Resolution) (videos : List α) :
    Option Resolution × Nat :=
  detectGo probe none videos 0

/-! ## Encode orchestrator (merge_vid.main lines 342-422) -/

/-- Outcome of one `run_ffmpeg` invocation as the orchestrator sees it:
either the subprocess finished with an exit code and a log tail, or the
call raised (e.g. `KeyboardInterrupt`, or the runner's own
`RuntimeError`), unwinding the loop. -/
inductive AttemptOutcome where
  | done (code : Int) (logTail : List String)
  | raisedMidRun
deriving DecidableEq

/-- One encode candidate: a codec together with the scaling mode
(`use_cuda_scale`). -/
structure Candidate where
  codec : String
  useCudaScale : Bool
deriving DecidableEq

/-- `scale_modes = [True, False] if prefer_cuda_scale else [False]`
(merge_vid.py line 377). -/
def scale_modes (preferCudaScale : Bool) : List Bool :=
  if preferCudaScale then [true, false] else [false]

/-- `codecs_to_try` (merge_vid.py lines 366-369): the primary codec,
plus the normalized fallback when it is truthy and not already in the
list. -/
def codecs_to_try (codecArg fallbackArg : String) : List String :=
  match normalize_fallback_codec (some fallbackArg) with
  | some fb => if fb ≠ "" ∧ fb ≠ codecArg then [codecArg, fb] else [codecArg]
  | none => [codecArg]

/-- Result of the inner `for use_cuda_scale in scale_modes` loop. -/
structure ScaleLoopOut where
  tried : List Bool
  nextAttempt : Nat
  lastError : Option (Int × List String)
  succeeded : Option Bool
  raised : Bool
deriving DecidableEq

/-- The inner loop (merge_vid.py lines 379-402): run one ffmpeg
invocation per scale mode, stopping at the first exit code 0. The
oracle maps the global attempt index to that invocation's outcome. -/
def runScaleModes (oracle : Nat → AttemptOutcome) :
    List Bool → Nat → Option (Int × List String) → ScaleLoopOut
  | [], i, last => ⟨[], i, last, none, false⟩
  | m :: ms, i, last =>
    match oracle i with
    | .raisedMidRun => ⟨[m], i + 1, last, none, true⟩
    | .done code logTail =>
      if code = 0 then ⟨[m], i + 1, last, some m, false⟩
      else
        let r := runScaleModes oracle ms (i + 1) (some (code, logTail))
        ⟨m :: r.tried, r.nextAttempt, r.lastError, r.succeeded, r.raised⟩

/-- Result of the outer `for codec_index, codec_name in
enumerate(codecs_to_try)` loop. -/
structure CodecLoopOut where
  tried : List Candidate
  nextAttempt : Nat
  lastError : Option (Int × List String)
  succeeded : Option (Nat × Candidate)
  raised : Bool
deriving DecidableEq

/-- The outer loop (merge_vid.py lines 373-410): per codec, hardware
scaling is preferred (tried first) exactly when a target resolution is
set and the codec is an NVENC codec. -/
def runCodecs (oracle : Nat → AttemptOutcome) (target : Option Resolution) :
    List String → Nat → Nat → Option (Int × List String) → CodecLoopOut
  | [], _, i, last => ⟨[], i, last, none, false⟩
  | codec :: restCodecs, codecIdx, i, last =>
    let preferCudaScale := target.isSome && nvencCodec codec
    let inner := runScaleModes oracle (scale_modes preferCudaScale) i last
    let triedHere := inner.tried.map (fun m => ⟨codec, m⟩)
    if inner.raised then ⟨triedHere, inner.nextAttempt, inner.lastError, none, true⟩
    else
      match inner.succeeded with
      | some m => ⟨triedHere, inner.nextAttempt, inner.lastError, some (codecIdx, ⟨codec, m⟩), false⟩
      | none =>
        let r := runCodecs oracle target restCodecs (codecIdx + 1) inner.nextAttempt inner.lastError
        ⟨triedHere ++ r.tried, r.nextAttempt, r.lastError, r.succeeded, r.raised⟩

/-- The priority-ordered candidate list the orchestrator works through:
for each codec of `codecs_to_try`, CUDA scaling before software scaling
when that is a meaningful option, else software scaling only. -/
def candidateList (target : Option Resolution) (codecArg fallbackArg : String) :
    List Candidate :=
  (codecs_to_try codecArg fallbackArg).flatMap (fun codec =>
    (scale_modes (target.isSome && nvencCodec codec)).map (fun m => ⟨codec, m⟩))

/-- `Path.unlink(missing_ok=...)`: deleting an existing file succeeds;
deleting a missing file succeeds only when `missing_ok` is set. The
`Bool` result is whether the file exists afterwards. -/
def pathUnlink (missingOk : Bool) (present : Bool) : Except Unit Bool :=
  if present then Except.ok false
  else if missingOk then Except.ok false
  else Except.error ()

/-- `target_resolution` as chosen by merge_vid.py lines 358-362: the
detected uniform resolution when there is one, else the parsed
`--resolution` argument. -/
def target_resolution_of (probe : Entry → Resolution) (videos : List Entry)
    (resolutionArg : Resolution) : Resolution :=
  match (detect_uniform_resolution probe videos).1 with
  | some r => r
  | none => resolutionArg

/-- How a run of `merge_vid.main` ends. -/
inductive MergeOutcome where
  | skipped
  | merged (codecIdx : Nat) (c : Candidate)
  | encodeFailed (code : Int) (logTail : List String)
  | raisedMidRun
  | internalError
deriving DecidableEq

/-- Observable result of a run of `merge_vid.main`: how it ended, the
candidates attempted (in order), whether the concat manifest still
exists afterwards, and every path the orchestrator unlinked. -/
structure MergeResult where
  outcome : MergeOutcome
  attempted : List Candidate
  manifestExists : Bool
  unlinked : List String
deriving DecidableEq

/-- `merge_vid.main` from the catalog scan onwards (lines 353-422).
`probe` abstracts `probe_video_resolution` (assumed to succeed, which
is the regime all the claims about this function concern), `oracle`
abstracts `run_ffmpeg` by global attempt index, `concatPath` is the
temp path `build_concat_file` returned. The `finally` block's
`Path(concat_file).unlink(missing_ok=True)` is run on every path that
reaches the try block, matching the source. -/
def mergeMain (entries : List Entry) (probe : Entry → Resolution)
    (oracle : Nat → AttemptOutcome) (codecArg fallbackArg : String)
    (presetArg : Option String) (resolutionArg : Resolution)
    (concatPath : String) : MergeResult :=
  let videos := find_numbered_videos entries
  if videos.isEmpty then ⟨.skipped, [], false, []⟩
  else
    let target := target_resolution_of probe videos resolutionArg
    let r := runCodecs oracle (some target) (codecs_to_try codecArg fallbackArg) 0 0 none
    let cleanup := pathUnlink true true
    let manifestExists := match cleanup with | .ok b => b | .error _ => true
    let outcome :=
      if r.raised then MergeOutcome.raisedMidRun
      else
        match r.succeeded with
        | some (ci, c) => MergeOutcome.merged ci c
        | none =>
          match r.lastError with
          | some (code, logTail) => MergeOutcome.encodeFailed code logTail
          | none => MergeOutcome.internalError
    ⟨outcome, r.tried, manifestExists, [concatPath]⟩

/-- The exact argument list `main` builds for one candidate
(merge_vid.py lines 375, 380-387). -/
def attemptCommand (concatPath outputPath : String) (presetArg : Option String)
    (target : Resolution) (c : Candidate) : List String :=
  build_ffmpeg_command concatPath outputPath c.codec (resolve_preset c.codec presetArg)
    (some target) c.useCudaScale

/-! ## rotate_vid.py (per-file processing) -/

/-- `derive_target_path` (rotate_vid.py lines 174-177). -/
def derive_target_path (src srcName : String) (outputDir : Option String) : String :=
  match outputDir with
  | none => src
  | some d => d ++ "/" ++ srcName

/-- `derive_temp_path` (rotate_vid.py lines 180-181): same directory,
stem extended with ".rotating". -/
def derive_temp_path (dir stem ext : String) : String :=
  dir ++ "/" ++ (stem ++ ".rotating" ++ ext)

/-- What `rotate_video` (rotate_vid.py lines 164-171) does once ffmpeg
exits: on non-zero exit, `dst.unlink(missing_ok=True)` then raise.
Result: (raised, paths unlinked). -/
def rotate_video_after (returncode : Int) (dst : String) : Bool × List String :=
  if returncode ≠ 0 then (true, [dst]) else (false, [])

/-- Observable effects of processing one video in `rotate_vid.main`
(lines 238-246). -/
structure RotateStep where
  dstGiven : String
  finalTarget : String
  unlinked : List String
  raised : Bool
  renamedToFinal : Bool
deriving DecidableEq

/-- One iteration of the `for video in videos` loop of
`rotate_vid.main`: pick the final target, divert to a temp path when it
would overwrite the source, run ffmpeg (exit code `returncode`), and on
success rename the temp file over the final target. -/
def rotate_process_one (dir stem ext : String) (outputDir : Option String)
    (returncode : Int) : RotateStep :=
  let src := dir ++ "/" ++ (stem ++ ext)
  let finalTarget := derive_target_path src (stem ++ ext) outputDir
  let tempTarget := if finalTarget = src then derive_temp_path dir stem ext else finalTarget
  let after := rotate_video_after returncode tempTarget
  if after.1 then ⟨tempTarget, finalTarget, after.2, true, false⟩
  else ⟨tempTarget, finalTarget, after.2, false, decide (tempTarget ≠ finalTarget)⟩

/-! ## Lemmas about detect_uniform_resolution -/

theorem detectGo_all_eq {α : Type} (probe : α → Resolution) (r : Resolution) :
    ∀ (l : List α) (k : Nat), (∀ v ∈ l, probe v = r) →
      detectGo probe (some r) l k = (some r, k + l.length) := by
  intro l
  induction l with
  | nil => intro k _; simp [detectGo]
  | cons v vs ih =>
    intro k h
    have hv : probe v = r := h v (List.mem_cons_self v vs)
    have hvs : ∀ u ∈ vs, probe u = r := fun u hu => h u (List.mem_cons_of_mem v hu)
    simp only [detectGo, hv, if_pos rfl]
    rw [ih (k + 1) hvs]
    simp [List.length_cons]
    omega

theorem detectGo_some_inv {α : Type} (probe : α → Resolution) :
    ∀ (l : List α) (ref : Resolution) (k : Nat) (r : Resolution) (n : Nat),
      detectGo probe (some ref) l k = (some r, n) → r = ref ∧ ∀ v ∈ l, probe v = ref := by
  intro l
  induction l with
  | nil =>
    intro ref k r n h
    simp [detectGo] at h
    exact ⟨h.1.symm, by simp⟩
  | cons v vs ih =>
    intro ref k r n h
    simp only [detectGo] at h
    by_cases hv : probe v = ref
    · rw [if_pos hv] at h
      obtain ⟨hr, hall⟩ := ih ref (k + 1) r n h
      refine ⟨hr, ?_⟩
      intro u hu
      rcases List.mem_cons.mp hu with h1 | h2
      · rw [h1]; exact hv
      · exact hall u h2
    · rw [if_neg hv] at h
      simp at h
  
theorem detectGo_mismatch {α : Type} (probe : α → Resolution) (r : Resolution) (w : α)
    (post : List α) (hw : probe w ≠ r) :
    ∀ (pre : List α) (k : Nat), (∀ u ∈ pre, probe u = r) →
      detectGo probe (some r) (pre ++ w :: post) k = (none, k + pre.length + 1) := by
  intro pre
  induction pre with
  | nil =>
    intro k _
    simp [detectGo, hw]
  | cons u us ih =>
    intro k h
    have hu : probe u = r := h u (List.mem_cons_self u us)
    have step : detectGo probe (some r) ((u :: us) ++ w :: post) k
        = detectGo probe (some r) (us ++ w :: post) (k + 1) := by
      simp [detectGo, hu]
    rw [step, ih (k + 1) (fun x hx => h x (List.mem_cons_of_mem u hx))]
    simp [List.length_cons]
    omega

/-- C3: `detect_uniform_resolution(videos)` returns `some r` iff every
video in the list probes to exactly `r` (the first probed value), and
returns `none` as soon as some probed resolution differs from the
first; probing happens in list order. The second conjunct expresses
the "as soon as"/ordering part through the instrumented probe counter:
when the first mismatch sits right after a prefix `v0 :: pre` of
matching probes, exactly `pre.length + 2` probes are performed. -/
theorem c3_detect_uniform (α : Type) (probe : α → Resolution) (videos : List α)
    (r : Resolution) (v0 w : α) (pre post : List α) :
    ((detect_uniform_resolution probe videos).1 = some r ↔
      (videos ≠ [] ∧ ∀ v ∈ videos, probe v = r))
    ∧ (videos = v0 :: (pre ++ w :: post) →
        (∀ u ∈ pre, probe u = probe v0) → probe w ≠ probe v0 →
        (detect_uniform_resolution probe videos).1 = none ∧
          (detect_uniform_resolution probe videos).2 = pre.length + 2) := by
  constructor
  · cases videos with
    | nil => simp [detect_uniform_resolution, detectGo]
    | cons v vs =>
      have hstep : detect_uniform_resolution probe (v :: vs)
          = detectGo probe (some (probe v)) vs 1 := by
        simp [detect_uniform_resolution, detectGo]
      rw [hstep]
      constructor
      · intro h
        have hpair : detectGo probe (some (probe v)) vs 1
            = (some r, (detectGo probe (some (probe v)) vs 1).2) := by
          rw [← h]
        obtain ⟨hr, hall⟩ := detectGo_some_inv probe vs (probe v) 1 r _ hpair
        refine ⟨by simp, ?_⟩
        intro u hu
        rcases List.mem_cons.mp hu with h1 | h2
        · rw [h1, hr]
        · rw [hall u h2, hr]
      · rintro ⟨-, hall⟩
        have hv : probe v = r := hall v (List.mem_cons_self v vs)
        have hvs : ∀ u ∈ vs, probe u = r := fun u hu => hall u (List.mem_cons_of_mem v hu)
        rw [hv, detectGo_all_eq probe r vs 1 hvs]
  · intro heq hpre hw
    subst heq
    have hstep : detect_uniform_resolution probe (v0 :: (pre ++ w :: post))
        = detectGo probe (some (probe v0)) (pre ++ w :: post) 1 := by
      simp [detect_uniform_resolution, detectGo]
    rw [hstep, detectGo_mismatch probe (probe v0) w post hw pre 1 hpre]
    constructor
    · rfl
    · simp
      omega

-- Witness for C3 at a concrete mixed-resolution list: the first
-- mismatch is the second element, so exactly two probes happen.
theorem c3_detect_uniform_witness :
    (detect_uniform_resolution (fun x : Resolution => x)
        [(1920, 1080), (1280, 720)]).1 = none ∧
      (detect_uniform_resolution (fun x : Resolution => x)
        [(1920, 1080), (1280, 720)]).2 = 2 :=
  (c3_detect_uniform Resolution (fun x => x) [(1920, 1080), (1280, 720)]
      (1920, 1080) (1920, 1080) (1280, 720) [] []).2 rfl (by simp) (by decide)

/-- C6: after every orchestrator run — success, exhaustion of the
candidates, or an exception raised mid-run — the concat manifest temp
file no longer exists (the `finally` block unlinks it), and unlinking
an already-missing manifest with `missing_ok=True` is an idempotent
no-op, not an error. -/
theorem c6_manifest_cleanup (entries : List Entry) (probe : Entry → Resolution)
    (oracle : Nat → AttemptOutcome) (codecArg fallbackArg : String)
    (presetArg : Option String) (resolutionArg : Resolution) (concatPath : String) :
    (mergeMain entries probe oracle codecArg fallbackArg presetArg resolutionArg
        concatPath).manifestExists = false
    ∧ pathUnlink true false = Except.ok false := by
  constructor
  · by_cases h : (find_numbered_videos entries).isEmpty
    · simp [mergeMain, h]
    · simp [mergeMain, h, pathUnlink]
  · rfl

/-- C8 (amended): when the input folder exists but zero files survive
the extension and sequence-tag filtering, `main` prints an
informational message and returns exit code 0 — outcome `skipped`,
with no encode attempt, no manifest, nothing unlinked — rather than
failing with a NotFound error. -/
theorem c8_empty_catalog_skips (entries : List Entry) (probe : Entry → Resolution)
    (oracle : Nat → AttemptOutcome) (codecArg fallbackArg : String)
    (presetArg : Option String) (resolutionArg : Resolution) (concatPath : String)
    (h : find_numbered_videos entries = []) :
    mergeMain entries probe oracle codecArg fallbackArg presetArg resolutionArg concatPath
      = ⟨MergeOutcome.skipped, [], false, []⟩ := by
  unfold mergeMain
  simp [h]

-- Witness for C8 (amended) on a folder holding only a non-video file
-- and a video file with no sequence tag.
theorem c8_empty_catalog_skips_witness :
    mergeMain [⟨"notes", ".txt", true⟩, ⟨"clip", ".mp4", true⟩]
        (fun _ => (1920, 1080)) (fun _ => AttemptOutcome.done 0 [])
        "h264_nvenc" "libx264" none (1920, 1080) "/tmp/concat.txt"
      = ⟨MergeOutcome.skipped, [], false, []⟩ :=
  c8_empty_catalog_skips [⟨"notes", ".txt", true⟩, ⟨"clip", ".mp4", true⟩]
    (fun _ => (1920, 1080)) (fun _ => AttemptOutcome.done 0 [])
    "h264_nvenc" "libx264" none (1920, 1080) "/tmp/concat.txt" (by decide)

-- C8 counterexample to the claim as stated: on a folder where zero
-- files survive filtering, the run completes successfully with the
-- skip outcome (exit code 0), not with a NotFound failure.
theorem c8_counterexample :
    (mergeMain [⟨"notes", ".txt", true⟩, ⟨"clip", ".mp4", true⟩]
        (fun _ => (1920, 1080)) (fun _ => AttemptOutcome.done 0 [])
        "h264_nvenc" "libx264" none (1920, 1080) "/tmp/concat.txt").outcome
      = MergeOutcome.skipped := by decide

/-! ## Flag-pair machinery for reasoning about argument lists -/

/-- Whether the two-token sequence `[a, b]` occurs (adjacently) in an
argument list. -/
def hasFlagPair (a b : String) : List String → Bool
  | x :: y :: rest => (x == a && y == b) || hasFlagPair a b (y :: rest)
  | _ => false

theorem hasFlagPair_iff (a b : String) :
    ∀ l : List String, ([a, b] <:+: l) ↔ hasFlagPair a b l = true := by
  intro l
  induction l with
  | nil =>
    simp [hasFlagPair]
  | cons x xs ih =>
    cases xs with
    | nil =>
      simp only [hasFlagPair, Bool.false_eq_true, iff_false]
      rintro ⟨s, t, hst⟩
      have hlen := congrArg List.length hst
      simp at hlen
      omega
    | cons y ys =>
      rw [ List.infix_cons_iff]
      have h1 : ([a, b] <+: x :: y :: ys) ↔ (x = a ∧ y = b) := by
        constructor
        · rintro ⟨t, ht⟩
          simp at ht
          exact ⟨ht.1.symm, ht.2.1.symm⟩
        · rintro ⟨hx, hy⟩
          exact ⟨ys, by rw [hx, hy]; rfl⟩
      rw [h1, ih]
      simp [hasFlagPair]

theorem hasFlagPair_of_decomp (a b : String) (l l1 l2 : List String)
    (h : l = l1 ++ [a, b] ++ l2) : hasFlagPair a b l = true := by
  rw [← hasFlagPair_iff]
  exact ⟨l1, l2, h.symm⟩

/-! ## The filter graphs are never empty and never flag-shaped -/

theorem cudaFilterGraph_ne_empty (w h : Nat) : cudaFilterGraph w h ≠ "" := by
  intro heq
  have hd := congrArg String.data heq
  simp [cudaFilterGraph, cudaScaleFilter, String.data_append] at hd

theorem swFilterGraph_ne_empty (w h : Nat) : swFilterGraph w h ≠ "" := by
  intro heq
  have hd := congrArg String.data heq
  simp [swFilterGraph, String.data_append] at hd

theorem cudaFilterGraph_ne_preset (w h : Nat) : cudaFilterGraph w h ≠ "-preset" := by
  intro heq
  have hd := congrArg String.data heq
  simp [cudaFilterGraph, cudaScaleFilter, String.data_append] at hd

theorem swFilterGraph_ne_preset (w h : Nat) : swFilterGraph w h ≠ "-preset" := by
  intro heq
  have hd := congrArg String.data heq
  simp [swFilterGraph, String.data_append] at hd

/-- C5 (amended): an explicitly supplied NON-EMPTY preset is always
used; an explicitly supplied empty preset is falsy in Python and is
treated as absent. With no usable explicit preset, a codec whose
lowercase name ends in "_nvenc" resolves to preset "p4" and the built
command contains `-preset p4`; any other codec resolves to no preset
and (provided none of the caller-supplied path/codec strings is itself
the literal token "-preset") the built command contains no `-preset`
flag. -/
theorem c5_preset_policy (codec p concatFile outputPath : String)
    (resolution : Option Resolution) (useCudaScale : Bool) :
    (p ≠ "" → resolve_preset codec (some p) = some p)
    ∧ (nvencCodec codec = true →
        resolve_preset codec none = some "p4"
        ∧ ["-preset", "p4"] <:+: build_ffmpeg_command concatFile outputPath codec
            (resolve_preset codec none) resolution useCudaScale)
    ∧ (nvencCodec codec = false →
        resolve_preset codec none = none
        ∧ (concatFile ≠ "-preset" → codec ≠ "-preset" → outputPath ≠ "-preset" →
            "-preset" ∉ build_ffmpeg_command concatFile outputPath codec
              (resolve_preset codec none) resolution useCudaScale)) := by
  refine ⟨?_, ?_, ?_⟩
  · intro hp
    simp [resolve_preset, truthyOptStr, hp]
  · intro hnv
    have hres : resolve_preset codec none = some "p4" := by
      simp [resolve_preset, truthyOptStr, hnv]
    refine ⟨hres, ?_⟩
    rw [hres, hasFlagPair_iff]
    rcases resolution with _ | ⟨w, hgt⟩
    · cases useCudaScale <;>
        simp [build_ffmpeg_command, build_resize_filter, hnv, hasFlagPair]
    · cases useCudaScale <;>
        simp [build_ffmpeg_command, build_resize_filter, hnv, hasFlagPair,
          cudaFilterGraph_ne_empty w hgt, swFilterGraph_ne_empty w hgt]
  · intro hnv
    have hres : resolve_preset codec none = none := by
      simp [resolve_preset, truthyOptStr, hnv]
    refine ⟨hres, ?_⟩
    intro h1 h2 h3
    rw [hres]
    rcases resolution with _ | ⟨w, hgt⟩
    · cases useCudaScale <;>
        simp [build_ffmpeg_command, build_resize_filter, hnv,
          Ne.symm h1, Ne.symm h2, Ne.symm h3]
    · cases useCudaScale <;>
        simp [build_ffmpeg_command, build_resize_filter, hnv,
          cudaFilterGraph_ne_empty, swFilterGraph_ne_empty,
          Ne.symm h1, Ne.symm h2, Ne.symm h3,
          Ne.symm (cudaFilterGraph_ne_preset w hgt),
          Ne.symm (swFilterGraph_ne_preset w hgt)]

-- C5 counterexample to the claim as stated: the explicitly supplied
-- preset "" is NOT used (Python truthiness treats it as absent); for
-- an NVENC codec it resolves to "p4" instead.
theorem c5_counterexample :
    resolve_preset "h264_nvenc" (some "") = some "p4"
    ∧ resolve_preset "h264_nvenc" (some "") ≠ some "" := by decide

-- Witness for C5 (amended) at concrete inputs.
theorem c5_preset_policy_witness :
    resolve_preset "libx264" (some "p7") = some "p7"
    ∧ resolve_preset "h264_nvenc" none = some "p4"
    ∧ ["-preset", "p4"] <:+: build_ffmpeg_command "/tmp/c.txt" "/out/v.mp4" "h264_nvenc"
        (resolve_preset "h264_nvenc" none) (some (1920, 1080)) true
    ∧ resolve_preset "libx264" none = none
    ∧ "-preset" ∉ build_ffmpeg_command "/tmp/c.txt" "/out/v.mp4" "libx264"
        (resolve_preset "libx264" none) (some (1920, 1080)) false := by
  have hA := (c5_preset_policy "libx264" "p7" "/tmp/c.txt" "/out/v.mp4"
    (some (1920, 1080)) false).1 (by decide)
  have hB := (c5_preset_policy "h264_nvenc" "x" "/tmp/c.txt" "/out/v.mp4"
    (some (1920, 1080)) true).2.1 (by decide)
  have hC := (c5_preset_policy "libx264" "x" "/tmp/c.txt" "/out/v.mp4"
    (some (1920, 1080)) false).2.2 (by decide)
  exact ⟨hA, hB.1, hB.2, hC.1, hC.2 (by decide) (by decide) (by decide)⟩

/-! ## Pair-occurrence facts about build_ffmpeg_command -/

theorem no_hwaccel_pair (concatFile outputPath codec : String) (preset : Option String)
    (resolution : Option Resolution) (useCudaScale : Bool)
    (hnv : nvencCodec codec = false) :
    hasFlagPair "-hwaccel" "cuda"
      (build_ffmpeg_command concatFile outputPath codec preset resolution useCudaScale)
      = false := by
  rcases resolution with _ | ⟨w, hgt⟩
  · rcases preset with _ | p
    · simp [build_ffmpeg_command, build_resize_filter, hnv, hasFlagPair]
    · by_cases hp : p = "" <;>
        simp [build_ffmpeg_command, build_resize_filter, hnv, hp, hasFlagPair]
  · cases useCudaScale <;> rcases preset with _ | p
    · simp [build_ffmpeg_command, build_resize_filter, hnv, hasFlagPair,
        swFilterGraph_ne_empty w hgt]
    · by_cases hp : p = "" <;>
        simp [build_ffmpeg_command, build_resize_filter, hnv, hp, hasFlagPair,
          swFilterGraph_ne_empty w hgt]
    · simp [build_ffmpeg_command, build_resize_filter, hnv, hasFlagPair,
        cudaFilterGraph_ne_empty w hgt]
    · by_cases hp : p = "" <;>
        simp [build_ffmpeg_command, build_resize_filter, hnv, hp, hasFlagPair,
          cudaFilterGraph_ne_empty w hgt]

theorem no_hwout_pair (concatFile outputPath codec : String) (preset : Option String)
    (resolution : Option Resolution) (useCudaScale : Bool)
    (hnf : (nvencCodec codec && (build_resize_filter resolution useCudaScale).2) = false) :
    hasFlagPair "-hwaccel_output_format" "cuda"
      (build_ffmpeg_command concatFile outputPath codec preset resolution useCudaScale)
      = false := by
  cases hnv : nvencCodec codec <;> rcases resolution with _ | ⟨w, hgt⟩
  · rcases preset with _ | p
    · simp [build_ffmpeg_command, build_resize_filter, hnv, hasFlagPair]
    · by_cases hp : p = "" <;>
        simp [build_ffmpeg_command, build_resize_filter, hnv, hp, hasFlagPair]
  · cases useCudaScale <;> rcases preset with _ | p
    · simp [build_ffmpeg_command, build_resize_filter, hnv, hasFlagPair,
        swFilterGraph_ne_empty w hgt]
    · by_cases hp : p = "" <;>
        simp [build_ffmpeg_command, build_resize_filter, hnv, hp, hasFlagPair,
          swFilterGraph_ne_empty w hgt]
    · simp [build_ffmpeg_command, build_resize_filter, hnv, hasFlagPair,
        cudaFilterGraph_ne_empty w hgt]
    · by_cases hp : p = "" <;>
        simp [build_ffmpeg_command, build_resize_filter, hnv, hp, hasFlagPair,
          cudaFilterGraph_ne_empty w hgt]
  · rcases preset with _ | p
    · simp [build_ffmpeg_command, build_resize_filter, hnv, hasFlagPair]
    · by_cases hp : p = "" <;>
        simp [build_ffmpeg_command, build_resize_filter, hnv, hp, hasFlagPair]
  · cases useCudaScale
    · rcases preset with _ | p
      · simp [build_ffmpeg_command, build_resize_filter, hnv, hasFlagPair,
          swFilterGraph_ne_empty w hgt]
      · by_cases hp : p = "" <;>
          simp [build_ffmpeg_command, build_resize_filter, hnv, hp, hasFlagPair,
            swFilterGraph_ne_empty w hgt]
    · rw [hnv] at hnf
      simp [build_resize_filter] at hnf

theorem pix_pair_eq (concatFile outputPath codec : String) (preset : Option String)
    (resolution : Option Resolution) (useCudaScale : Bool) :
    hasFlagPair "-pix_fmt" "yuv420p"
      (build_ffmpeg_command concatFile outputPath codec preset resolution useCudaScale)
      = !(nvencCodec codec) := by
  cases hnv : nvencCodec codec <;> rcases resolution with _ | ⟨w, hgt⟩
  · rcases preset with _ | p
    · simp [build_ffmpeg_command, build_resize_filter, hnv, hasFlagPair]
    · by_cases hp : p = "" <;>
        simp [build_ffmpeg_command, build_resize_filter, hnv, hp, hasFlagPair]
  · cases useCudaScale <;> rcases preset with _ | p
    · simp [build_ffmpeg_command, build_resize_filter, hnv, hasFlagPair,
        swFilterGraph_ne_empty w hgt]
    · by_cases hp : p = "" <;>
        simp [build_ffmpeg_command, build_resize_filter, hnv, hp, hasFlagPair,
          swFilterGraph_ne_empty w hgt]
    · simp [build_ffmpeg_command, build_resize_filter, hnv, hasFlagPair,
        cudaFilterGraph_ne_empty w hgt]
    · by_cases hp : p = "" <;>
        simp [build_ffmpeg_command, build_resize_filter, hnv, hp, hasFlagPair,
          cudaFilterGraph_ne_empty w hgt]
  · rcases preset with _ | p
    · simp [build_ffmpeg_command, build_resize_filter, hnv, hasFlagPair]
    · by_cases hp : p = "" <;>
        simp [build_ffmpeg_command, build_resize_filter, hnv, hp, hasFlagPair]
  · cases useCudaScale <;> rcases preset with _ | p
    · simp [build_ffmpeg_command, build_resize_filter, hnv, hasFlagPair,
        swFilterGraph_ne_empty w hgt]
    · by_cases hp : p = "" <;>
        simp [build_ffmpeg_command, build_resize_filter, hnv, hp, hasFlagPair,
          swFilterGraph_ne_empty w hgt]
    · simp [build_ffmpeg_command, build_resize_filter, hnv, hasFlagPair,
        cudaFilterGraph_ne_empty w hgt]
    · by_cases hp : p = "" <;>
        simp [build_ffmpeg_command, build_resize_filter, hnv, hp, hasFlagPair,
          cudaFilterGraph_ne_empty w hgt]

theorem hwout_pair_of_needs (concatFile outputPath codec : String) (preset : Option String)
    (resolution : Option Resolution) (useCudaScale : Bool)
    (hnv : nvencCodec codec = true) (hres : resolution.isSome = true)
    (hcuda : useCudaScale = true) :
    hasFlagPair "-hwaccel_output_format" "cuda"
      (build_ffmpeg_command concatFile outputPath codec preset resolution useCudaScale)
      = true := by
  rcases resolution with _ | ⟨w, hgt⟩
  · simp at hres
  · subst hcuda
    rcases preset with _ | p
    · simp [build_ffmpeg_command, build_resize_filter, hnv, hasFlagPair,
        cudaFilterGraph_ne_empty w hgt]
    · by_cases hp : p = "" <;>
        simp [build_ffmpeg_command, build_resize_filter, hnv, hp, hasFlagPair,
          cudaFilterGraph_ne_empty w hgt]

theorem nvenc_cmd_head (concatFile outputPath codec : String) (preset : Option String)
    (resolution : Option Resolution) (useCudaScale : Bool)
    (hnv : nvencCodec codec = true) :
    ∃ l2, build_ffmpeg_command concatFile outputPath codec preset resolution useCudaScale
      = ["ffmpeg", "-y", "-hide_banner", "-loglevel", "info"] ++ ["-hwaccel", "cuda"] ++ l2
      ∧ "-i" ∈ l2 := by
  refine ⟨(if (nvencCodec codec && (build_resize_filter resolution useCudaScale).2)
        then ["-hwaccel_output_format", "cuda"] else [])
      ++ ["-f", "concat", "-safe", "0", "-i", concatFile, "-c:v", codec]
      ++ (match preset with
          | some p => if p = "" then [] else ["-preset", p]
          | none => [])
      ++ (match (build_resize_filter resolution useCudaScale).1 with
          | some fg => if fg = "" then [] else ["-vf", fg]
          | none => [])
      ++ (if nvencCodec codec then [] else ["-pix_fmt", "yuv420p"])
      ++ ["-c:a", "copy", outputPath], ?_, ?_⟩
  · simp [build_ffmpeg_command, hnv]
  · simp

/-- C4: in every argument list produced by `build_ffmpeg_command`, the
`-hwaccel cuda` flag appears before the input specification `-i`
exactly when the codec name ends (case-insensitively) in "_nvenc";
`-hwaccel_output_format cuda` appears exactly when additionally the
CUDA-scaling filter path with a target resolution is in use; and
`-pix_fmt yuv420p` appears exactly when the codec is not an NVENC
codec. -/
theorem c4_hw_flags (concatFile outputPath codec : String) (preset : Option String)
    (resolution : Option Resolution) (useCudaScale : Bool) :
    ((∃ l1 l2, build_ffmpeg_command concatFile outputPath codec preset resolution useCudaScale
        = l1 ++ ["-hwaccel", "cuda"] ++ l2 ∧ "-i" ∈ l2) ↔ nvencCodec codec = true)
    ∧ (["-hwaccel_output_format", "cuda"] <:+:
          build_ffmpeg_command concatFile outputPath codec preset resolution useCudaScale ↔
        (nvencCodec codec = true ∧ resolution.isSome = true ∧ useCudaScale = true))
    ∧ (["-pix_fmt", "yuv420p"] <:+:
          build_ffmpeg_command concatFile outputPath codec preset resolution useCudaScale ↔
        nvencCodec codec = false) := by
  refine ⟨⟨?_, ?_⟩, ⟨?_, ?_⟩, ⟨?_, ?_⟩⟩
  · rintro ⟨l1, l2, heq, -⟩
    cases hnv : nvencCodec codec
    · have htrue : hasFlagPair "-hwaccel" "cuda"
          (build_ffmpeg_command concatFile outputPath codec preset resolution useCudaScale)
          = true :=
        hasFlagPair_of_decomp _ _ _ l1 l2 heq
      rw [no_hwaccel_pair concatFile outputPath codec preset resolution useCudaScale hnv]
        at htrue
      exact absurd htrue Bool.false_ne_true
    · rfl
  · intro hnv
    obtain ⟨l2, heq, hi⟩ :=
      nvenc_cmd_head concatFile outputPath codec preset resolution useCudaScale hnv
    exact ⟨_, l2, heq, hi⟩
  · intro hinf
    by_contra hneg
    have hnf : (nvencCodec codec && (build_resize_filter resolution useCudaScale).2)
        = false := by
      rcases resolution with _ | ⟨w, hgt⟩
      · simp [build_resize_filter]
      · cases hcuda : useCudaScale
        · simp [build_resize_filter]
        · cases hnv : nvencCodec codec
          · simp
          · exact absurd ⟨hnv, rfl, hcuda⟩ hneg
    have htrue := (hasFlagPair_iff "-hwaccel_output_format" "cuda"
      (build_ffmpeg_command concatFile outputPath codec preset resolution useCudaScale)).mp hinf
    rw [no_hwout_pair concatFile outputPath codec preset resolution useCudaScale hnf] at htrue
    exact absurd htrue Bool.false_ne_true
  · rintro ⟨hnv, hres, hcuda⟩
    exact (hasFlagPair_iff "-hwaccel_output_format" "cuda"
      (build_ffmpeg_command concatFile outputPath codec preset resolution useCudaScale)).mpr
      (hwout_pair_of_needs concatFile outputPath codec preset resolution useCudaScale
        hnv hres hcuda)
  · intro hinf
    have htrue := (hasFlagPair_iff "-pix_fmt" "yuv420p"
      (build_ffmpeg_command concatFile outputPath codec preset resolution useCudaScale)).mp hinf
    rw [pix_pair_eq concatFile outputPath codec preset resolution useCudaScale] at htrue
    cases h : nvencCodec codec
    · rfl
    · rw [h] at htrue
      simp at htrue
  · intro hnv
    refine (hasFlagPair_iff "-pix_fmt" "yuv420p"
      (build_ffmpeg_command concatFile outputPath codec preset resolution useCudaScale)).mpr ?_
    rw [pix_pair_eq concatFile outputPath codec preset resolution useCudaScale, hnv]
    rfl

/-! ## The orchestrator loop under an all-failing ffmpeg -/

/-- The candidates one codec contributes, in the order the loop tries
them. -/
def candExpand (target : Option Resolution) (c : String) : List Candidate :=
  (scale_modes (target.isSome && nvencCodec c)).map (fun m => ⟨c, m⟩)

theorem candidateList_eq (target : Option Resolution) (a b : String) :
    candidateList target a b = (codecs_to_try a b).flatMap (candExpand target) := rfl

theorem scale_modes_ne_nil (b : Bool) : scale_modes b ≠ [] := by
  cases b <;> simp [scale_modes]

theorem candExpand_ne_nil (target : Option Resolution) (c : String) :
    candExpand target c ≠ [] := by
  unfold candExpand
  rw [Ne, List.map_eq_nil_iff]
  exact scale_modes_ne_nil _

theorem runScaleModes_allFail (code : Nat → Int) (logs : Nat → List String)
    (h : ∀ i, code i ≠ 0) :
    ∀ (modes : List Bool) (i : Nat) (last : Option (Int × List String)),
      runScaleModes (fun j => AttemptOutcome.done (code j) (logs j)) modes i last
        = ⟨modes, i + modes.length,
           if modes.isEmpty then last
           else some (code (i + modes.length - 1), logs (i + modes.length - 1)),
           none, false⟩ := by
  intro modes
  induction modes with
  | nil => intro i last; simp [runScaleModes]
  | cons m ms ih =>
    intro i last
    simp only [runScaleModes]
    rw [if_neg (h i), ih (i + 1) (some (code i, logs i))]
    cases ms with
    | nil => simp
    | cons m2 ms2 =>
      have hnext : i + 1 + (m2 :: ms2).length = i + (m :: m2 :: ms2).length := by
        simp [List.length_cons]; omega
      have hidx : i + 1 + (m2 :: ms2).length - 1 = i + (m :: m2 :: ms2).length - 1 := by
        simp [List.length_cons]; omega
      simp only [List.isEmpty_cons, hnext, hidx]
      simp

theorem runCodecs_allFail (code : Nat → Int) (logs : Nat → List String)
    (h : ∀ i, code i ≠ 0) (target : Option Resolution) :
    ∀ (codecs : List String) (ci i : Nat) (last : Option (Int × List String)),
      runCodecs (fun j => AttemptOutcome.done (code j) (logs j)) target codecs ci i last
        = ⟨codecs.flatMap (candExpand target),
           i + (codecs.flatMap (candExpand target)).length,
           if (codecs.flatMap (candExpand target)).isEmpty then last
           else some (code (i + (codecs.flatMap (candExpand target)).length - 1),
                      logs (i + (codecs.flatMap (candExpand target)).length - 1)),
           none, false⟩ := by
  intro codecs
  induction codecs with
  | nil => intro ci i last; simp [runCodecs]
  | cons c cs ih =>
    intro ci i last
    have hmlE : (scale_modes (target.isSome && nvencCodec c)).isEmpty = false :=
      List.isEmpty_eq_false.mpr (scale_modes_ne_nil _)
    simp only [runCodecs]
    rw [runScaleModes_allFail code logs h (scale_modes (target.isSome && nvencCodec c)) i last]
    simp only [hmlE, Bool.false_eq_true, if_false]
    rw [ih (ci + 1)
      (i + (scale_modes (target.isSome && nvencCodec c)).length)
      (some (code (i + (scale_modes (target.isSome && nvencCodec c)).length - 1),
             logs (i + (scale_modes (target.isSome && nvencCodec c)).length - 1)))]
    have hflat : (c :: cs).flatMap (candExpand target)
        = candExpand target c ++ cs.flatMap (candExpand target) :=
      List.flatMap_cons c cs (candExpand target)
    have htried : (scale_modes (target.isSome && nvencCodec c)).map
        (fun m => (⟨c, m⟩ : Candidate)) = candExpand target c := rfl
    rw [hflat, htried]
    have hmapl : (candExpand target c).length
        = (scale_modes (target.isSome && nvencCodec c)).length := by
      simp [candExpand]
    set ml := (scale_modes (target.isSome && nvencCodec c)).length with hmldef
    set fl := cs.flatMap (candExpand target) with hfldef
    have hlen : (candExpand target c ++ fl).length = ml + fl.length := by
      simp [List.length_append, hmapl]
    have happne : (candExpand target c ++ fl).isEmpty = false := by
      rw [List.isEmpty_eq_false]
      intro hcon
      exact candExpand_ne_nil target c (List.append_eq_nil.mp hcon).1
    cases hfe : fl.isEmpty
    · have hn1 : i + ml + fl.length = i + (ml + fl.length) := by omega
      have hn2 : i + ml + fl.length - 1 = i + (ml + fl.length) - 1 := by omega
      simp only [hfe, Bool.false_eq_true, if_false, happne, hlen, hn1, hn2]
    · have hfln : fl = [] := List.isEmpty_iff.mp hfe
      have hn1 : i + ml + fl.length = i + (ml + fl.length) := by omega
      have hn3 : i + ml - 1 = i + (ml + fl.length) - 1 := by
        rw [hfln]; simp
      simp only [hfe, if_true, happne, hlen, hn1, hn3]
      simp

theorem codecs_to_try_cons (a b : String) : ∃ rest, codecs_to_try a b = a :: rest := by
  cases hN : normalize_fallback_codec (some b) with
  | none => exact ⟨[], by simp [codecs_to_try, hN]⟩
  | some fb =>
    by_cases hcond : fb ≠ "" ∧ fb ≠ a
    · exact ⟨[fb], by simp [codecs_to_try, hN, hcond]⟩
    · exact ⟨[], by simp [codecs_to_try, hN, hcond]⟩

theorem candidateList_ne_nil (target : Option Resolution) (a b : String) :
    candidateList target a b ≠ [] := by
  rw [candidateList_eq]
  obtain ⟨rest, hc⟩ := codecs_to_try_cons a b
  rw [hc, List.flatMap_cons]
  intro hcon
  exact candExpand_ne_nil target a (List.append_eq_nil.mp hcon).1

/-- C1: when every ffmpeg invocation exits non-zero, `merge_vid.main`
attempts each candidate of the priority-ordered list exactly once — for
each codec of `codecs_to_try` (primary, then the fallback when
configured, not a sentinel, and distinct from the primary), CUDA
scaling before software scaling when the codec is NVENC and a target
resolution is set, else software scaling only — and the raised error
carries the exit code and log tail of the last attempted candidate
only. -/
theorem c1_candidate_exhaustion (entries : List Entry) (probe : Entry → Resolution)
    (code : Nat → Int) (logs : Nat → List String) (codecArg fallbackArg : String)
    (presetArg : Option String) (resolutionArg : Resolution) (concatPath : String)
    (hne : find_numbered_videos entries ≠ []) (hfail : ∀ i, code i ≠ 0) :
    (mergeMain entries probe (fun j => AttemptOutcome.done (code j) (logs j))
        codecArg fallbackArg presetArg resolutionArg concatPath).attempted
      = candidateList
          (some (target_resolution_of probe (find_numbered_videos entries) resolutionArg))
          codecArg fallbackArg
    ∧ candidateList
        (some (target_resolution_of probe (find_numbered_videos entries) resolutionArg))
        codecArg fallbackArg ≠ []
    ∧ (mergeMain entries probe (fun j => AttemptOutcome.done (code j) (logs j))
        codecArg fallbackArg presetArg resolutionArg concatPath).outcome
      = MergeOutcome.encodeFailed
          (code ((candidateList
            (some (target_resolution_of probe (find_numbered_videos entries) resolutionArg))
            codecArg fallbackArg).length - 1))
          (logs ((candidateList
            (some (target_resolution_of probe (find_numbered_videos entries) resolutionArg))
            codecArg fallbackArg).length - 1)) := by
  have hvne : (find_numbered_videos entries).isEmpty = false :=
    List.isEmpty_eq_false.mpr hne
  set tgt := target_resolution_of probe (find_numbered_videos entries) resolutionArg with htgt
  have hloop := runCodecs_allFail code logs hfail (some tgt)
    (codecs_to_try codecArg fallbackArg) 0 0 none
  have hflatne : (codecs_to_try codecArg fallbackArg).flatMap (candExpand (some tgt)) ≠ [] := by
    rw [← candidateList_eq]
    exact candidateList_ne_nil (some tgt) codecArg fallbackArg
  have hflatE : ((codecs_to_try codecArg fallbackArg).flatMap
      (candExpand (some tgt))).isEmpty = false :=
    List.isEmpty_eq_false.mpr hflatne
  have hmm : mergeMain entries probe (fun j => AttemptOutcome.done (code j) (logs j))
      codecArg fallbackArg presetArg resolutionArg concatPath
      = ⟨MergeOutcome.encodeFailed
            (code ((candidateList (some tgt) codecArg fallbackArg).length - 1))
            (logs ((candidateList (some tgt) codecArg fallbackArg).length - 1)),
         candidateList (some tgt) codecArg fallbackArg, false, [concatPath]⟩ := by
    simp only [mergeMain, hvne, Bool.false_eq_true, if_false, ← htgt]
    rw [hloop]
    simp only [hflatE, Bool.false_eq_true, if_false, pathUnlink, if_pos]
    rw [← candidateList_eq]
    simp
  rw [hmm]
  exact ⟨rfl, candidateList_ne_nil (some tgt) codecArg fallbackArg, rfl⟩

-- Witness for C1: one catalogued clip, primary h264_nvenc with
-- default fallback libx264, every invocation failing with exit 1.
theorem c1_candidate_exhaustion_witness :
    (mergeMain [⟨"clip_0001", ".mp4", true⟩] (fun _ => (1920, 1080))
        (fun _ => AttemptOutcome.done 1 ["err line"]) "h264_nvenc" "libx264" none
        (1920, 1080) "/tmp/concat.txt").attempted
      = [⟨"h264_nvenc", true⟩, ⟨"h264_nvenc", false⟩, ⟨"libx264", false⟩]
    ∧ (mergeMain [⟨"clip_0001", ".mp4", true⟩] (fun _ => (1920, 1080))
        (fun _ => AttemptOutcome.done 1 ["err line"]) "h264_nvenc" "libx264" none
        (1920, 1080) "/tmp/concat.txt").outcome
      = MergeOutcome.encodeFailed 1 ["err line"] := by
  have h := c1_candidate_exhaustion [⟨"clip_0001", ".mp4", true⟩] (fun _ => (1920, 1080))
    (fun _ => 1) (fun _ => ["err line"]) "h264_nvenc" "libx264" none (1920, 1080)
    "/tmp/concat.txt" (by decide) (fun i => (by decide : (1 : Int) ≠ 0))
  exact ⟨h.1.trans (by decide), h.2.2.trans (by decide)⟩

/-! ## The orchestrator under a first-attempt success -/

theorem runCodecs_firstSuccess (oracle : Nat → AttemptOutcome) (target : Option Resolution)
    (c : String) (cs : List String) (ci i : Nat) (last : Option (Int × List String))
    (tl : List String) (h0 : oracle i = AttemptOutcome.done 0 tl) :
    runCodecs oracle target (c :: cs) ci i last
      = ⟨[⟨c, target.isSome && nvencCodec c⟩], i + 1, last,
         some (ci, ⟨c, target.isSome && nvencCodec c⟩), false⟩ := by
  simp only [runCodecs]
  cases hpc : (target.isSome && nvencCodec c) <;>
    simp [scale_modes, runScaleModes, h0, hpc]

theorem detect_uniform_of_const (probe : Entry → Resolution) (videos : List Entry)
    (r : Resolution) (hne : videos ≠ []) (hprobe : ∀ e ∈ videos, probe e = r) :
    (detect_uniform_resolution probe videos).1 = some r := by
  obtain ⟨v, vs, hv⟩ := List.exists_cons_of_ne_nil hne
  subst hv
  have hpv : probe v = r := hprobe v (List.mem_cons_self v vs)
  have hstep : detect_uniform_resolution probe (v :: vs)
      = detectGo probe (some (probe v)) vs 1 := by
    simp [detect_uniform_resolution, detectGo]
  rw [hstep, hpv, detectGo_all_eq probe r vs 1 (fun u hu => hprobe u (List.mem_cons_of_mem v hu))]

/-- C2 (amended): for a catalogued folder whose clips all probe to
1920x1080 and the default codec h264_nvenc, the uniform resolution is
detected and used as the TARGET resolution (whatever `--resolution`
parsed to), so the scale/pad filter chain IS still present in the
command — padding to 1920x1080, a runtime no-op; the first invocation
uses CUDA scaling and, succeeding, is the only invocation (software
scaling is never attempted) with the primary codec (codec index 0);
and the command's final argument is the output path
`<folder-name>.mp4` inside the output folder. -/
theorem c2_uniform_scenario (entries : List Entry) (probe : Entry → Resolution)
    (oracle : Nat → AttemptOutcome) (fallbackArg : String) (resolutionArg : Resolution)
    (concatPath inputFolderName outputFolder : String) (tl : List String)
    (hne : find_numbered_videos entries ≠ [])
    (hprobe : ∀ e ∈ find_numbered_videos entries, probe e = (1920, 1080))
    (h0 : oracle 0 = AttemptOutcome.done 0 tl) :
    target_resolution_of probe (find_numbered_videos entries) resolutionArg = (1920, 1080)
    ∧ (mergeMain entries probe oracle "h264_nvenc" fallbackArg none resolutionArg
        concatPath).outcome = MergeOutcome.merged 0 ⟨"h264_nvenc", true⟩
    ∧ (mergeMain entries probe oracle "h264_nvenc" fallbackArg none resolutionArg
        concatPath).attempted = [⟨"h264_nvenc", true⟩]
    ∧ ["-vf", cudaFilterGraph 1920 1080] <:+:
        attemptCommand concatPath (derive_output_path inputFolderName outputFolder) none
          (1920, 1080) ⟨"h264_nvenc", true⟩
    ∧ "pad=1920:1080:(ow-iw)/2:(oh-ih)/2".data <:+: (cudaFilterGraph 1920 1080).data
    ∧ ["-c:a", "copy", outputFolder ++ "/" ++ (inputFolderName ++ ".mp4")] <:+
        attemptCommand concatPath (derive_output_path inputFolderName outputFolder) none
          (1920, 1080) ⟨"h264_nvenc", true⟩ := by
  have hnv : nvencCodec "h264_nvenc" = true := by decide
  have hvne : (find_numbered_videos entries).isEmpty = false :=
    List.isEmpty_eq_false.mpr hne
  have huni : (detect_uniform_resolution probe (find_numbered_videos entries)).1
      = some (1920, 1080) :=
    detect_uniform_of_const probe (find_numbered_videos entries) (1920, 1080) hne hprobe
  have htgt : target_resolution_of probe (find_numbered_videos entries) resolutionArg
      = (1920, 1080) := by
    simp [target_resolution_of, huni]
  obtain ⟨rest, hc⟩ := codecs_to_try_cons "h264_nvenc" fallbackArg
  have hrun : runCodecs oracle (some (1920, 1080)) ("h264_nvenc" :: rest) 0 0 none
      = ⟨[⟨"h264_nvenc", true⟩], 1, none, some (0, ⟨"h264_nvenc", true⟩), false⟩ := by
    rw [runCodecs_firstSuccess oracle (some (1920, 1080)) "h264_nvenc" rest 0 0 none tl h0]
    simp [hnv]
  have hmm : mergeMain entries probe oracle "h264_nvenc" fallbackArg none resolutionArg
      concatPath
      = ⟨MergeOutcome.merged 0 ⟨"h264_nvenc", true⟩, [⟨"h264_nvenc", true⟩], false,
         [concatPath]⟩ := by
    simp only [mergeMain, hvne, Bool.false_eq_true, if_false, htgt, hc]
    rw [hrun]
    simp [pathUnlink]
  refine ⟨htgt, by rw [hmm], by rw [hmm], ?_, by decide, ?_⟩
  · refine (hasFlagPair_iff "-vf" (cudaFilterGraph 1920 1080) _).mpr ?_
    simp [attemptCommand, build_ffmpeg_command, build_resize_filter, resolve_preset,
      truthyOptStr, hnv, hasFlagPair, cudaFilterGraph_ne_empty 1920 1080]
  · refine ⟨["ffmpeg", "-y", "-hide_banner", "-loglevel", "info", "-hwaccel", "cuda",
      "-hwaccel_output_format", "cuda", "-f", "concat", "-safe", "0", "-i", concatPath,
      "-c:v", "h264_nvenc", "-preset", "p4", "-vf", cudaFilterGraph 1920 1080], ?_⟩
    simp [attemptCommand, build_ffmpeg_command, build_resize_filter, resolve_preset,
      truthyOptStr, hnv, cudaFilterGraph_ne_empty 1920 1080, derive_output_path]

-- Witness for C2 (amended) at the concrete spec scenario (two
-- 1920x1080 clips, defaults, first invocation succeeds).
theorem c2_uniform_scenario_witness :
    (mergeMain [⟨"clip_0001", ".mp4", true⟩, ⟨"clip_0002", ".mp4", true⟩]
        (fun _ => (1920, 1080)) (fun _ => AttemptOutcome.done 0 ["ok"])
        "h264_nvenc" "libx264" none (1920, 1080) "/tmp/concat.txt").outcome
      = MergeOutcome.merged 0 ⟨"h264_nvenc", true⟩
    ∧ (mergeMain [⟨"clip_0001", ".mp4", true⟩, ⟨"clip_0002", ".mp4", true⟩]
        (fun _ => (1920, 1080)) (fun _ => AttemptOutcome.done 0 ["ok"])
        "h264_nvenc" "libx264" none (1920, 1080) "/tmp/concat.txt").attempted
      = [⟨"h264_nvenc", true⟩]
    ∧ ["-vf", cudaFilterGraph 1920 1080] <:+:
        attemptCommand "/tmp/concat.txt" (derive_output_path "clips" "/render") none
          (1920, 1080) ⟨"h264_nvenc", true⟩ := by
  have h := c2_uniform_scenario [⟨"clip_0001", ".mp4", true⟩, ⟨"clip_0002", ".mp4", true⟩]
    (fun _ => (1920, 1080)) (fun _ => AttemptOutcome.done 0 ["ok"]) "libx264" (1920, 1080)
    "/tmp/concat.txt" "clips" "/render" ["ok"] (by decide) (fun e _ => rfl) rfl
  exact ⟨h.2.1, h.2.2.1, h.2.2.2.1⟩

-- C2 counterexample to the claim as stated: in the uniform scenario
-- the single successful invocation's command DOES carry a padding
-- filter (`pad=1920:1080:...` inside the CUDA filter graph passed
-- after `-vf`), because the detected uniform resolution becomes the
-- target resolution; "applies no padding filter" is false on the code.
theorem c2_counterexample :
    (mergeMain [⟨"clip_0001", ".mp4", true⟩, ⟨"clip_0002", ".mp4", true⟩]
        (fun _ => (1920, 1080)) (fun _ => AttemptOutcome.done 0 ["ok"])
        "h264_nvenc" "libx264" none (1920, 1080) "/tmp/concat.txt").outcome
      = MergeOutcome.merged 0 ⟨"h264_nvenc", true⟩
    ∧ hasFlagPair "-vf" (cudaFilterGraph 1920 1080)
        (attemptCommand "/tmp/concat.txt" (derive_output_path "clips" "/render") none
          (1920, 1080) ⟨"h264_nvenc", true⟩) = true
    ∧ "pad=1920:1080:(ow-iw)/2:(oh-ih)/2".data <:+: (cudaFilterGraph 1920 1080).data := by
  refine ⟨by decide, by decide, by decide⟩

/-- C7 (amended): when an ffmpeg invocation of `rotate_vid` fails
(non-zero exit), the file at the path ffmpeg was told to write is
deleted before the error is raised, and in overwrite mode (no output
folder) that path is the temporary ".rotating" path, distinct from the
final path — so the final path never holds a truncated file. The merge
tool, by contrast, only ever unlinks its concat manifest: it does NOT
delete a partially-written file at the merge output path on failure. -/
theorem c7_partial_output (dir stem ext : String) (outputDir : Option String) (rc : Int)
    (entries : List Entry) (probe : Entry → Resolution) (oracle : Nat → AttemptOutcome)
    (codecArg fallbackArg : String) (presetArg : Option String)
    (resolutionArg : Resolution) (concatPath : String) :
    (rc ≠ 0 →
      (rotate_process_one dir stem ext outputDir rc).raised = true
      ∧ (rotate_process_one dir stem ext outputDir rc).unlinked
          = [(rotate_process_one dir stem ext outputDir rc).dstGiven]
      ∧ (outputDir = none →
          (rotate_process_one dir stem ext outputDir rc).dstGiven
            ≠ (rotate_process_one dir stem ext outputDir rc).finalTarget))
    ∧ (∀ p ∈ (mergeMain entries probe oracle codecArg fallbackArg presetArg resolutionArg
        concatPath).unlinked, p = concatPath) := by
  constructor
  · intro hrc
    have hstep : rotate_process_one dir stem ext outputDir rc
        = ⟨if derive_target_path (dir ++ "/" ++ (stem ++ ext)) (stem ++ ext) outputDir
              = dir ++ "/" ++ (stem ++ ext)
           then derive_temp_path dir stem ext
           else derive_target_path (dir ++ "/" ++ (stem ++ ext)) (stem ++ ext) outputDir,
           derive_target_path (dir ++ "/" ++ (stem ++ ext)) (stem ++ ext) outputDir,
           [if derive_target_path (dir ++ "/" ++ (stem ++ ext)) (stem ++ ext) outputDir
               = dir ++ "/" ++ (stem ++ ext)
            then derive_temp_path dir stem ext
            else derive_target_path (dir ++ "/" ++ (stem ++ ext)) (stem ++ ext) outputDir],
           true, false⟩ := by
      simp [rotate_process_one, rotate_video_after, hrc]
    rw [hstep]
    refine ⟨rfl, rfl, ?_⟩
    intro hod
    subst hod
    have hfin : derive_target_path (dir ++ "/" ++ (stem ++ ext)) (stem ++ ext) none
        = dir ++ "/" ++ (stem ++ ext) := rfl
    rw [hfin, if_pos rfl]
    intro heq
    have hl := congrArg String.length heq
    have h9 : (".rotating" : String).length = 9 := rfl
    have h1 : ("/" : String).length = 1 := rfl
    simp [derive_temp_path, String.length_append, h9, h1] at hl
  · intro p hp
    by_cases h : (find_numbered_videos entries).isEmpty
    · simp [mergeMain, h] at hp
    · simp [mergeMain, h] at hp
      exact hp

-- Witness for C7 (amended): overwrite-mode rotation of /v/a.mp4 whose
-- encode fails with exit 1.
theorem c7_partial_output_witness :
    (rotate_process_one "/v" "a" ".mp4" none 1).raised = true
    ∧ (rotate_process_one "/v" "a" ".mp4" none 1).unlinked
        = [(rotate_process_one "/v" "a" ".mp4" none 1).dstGiven]
    ∧ (rotate_process_one "/v" "a" ".mp4" none 1).dstGiven
        ≠ (rotate_process_one "/v" "a" ".mp4" none 1).finalTarget := by
  have h := (c7_partial_output "/v" "a" ".mp4" none 1 [] (fun _ => (1, 1))
    (fun _ => AttemptOutcome.done 0 []) "c" "f" none (1, 1) "/tmp/c.txt").1
    (by decide)
  exact ⟨h.1, h.2.1, h.2.2 rfl⟩

-- C7 counterexample to the claim as stated: a failing merge run
-- surfaces encodeFailed while unlinking only the concat manifest; the
-- merge output path is NOT deleted, so a partially-written file at
-- the final output path survives the error.
theorem c7_counterexample :
    (mergeMain [⟨"clip_0001", ".mp4", true⟩] (fun _ => (1920, 1080))
        (fun _ => AttemptOutcome.done 1 ["e"]) "h264_nvenc" "libx264" none (1920, 1080)
        "/tmp/concat.txt").outcome = MergeOutcome.encodeFailed 1 ["e"]
    ∧ (mergeMain [⟨"clip_0001", ".mp4", true⟩] (fun _ => (1920, 1080))
        (fun _ => AttemptOutcome.done 1 ["e"]) "h264_nvenc" "libx264" none (1920, 1080)
        "/tmp/concat.txt").unlinked = ["/tmp/concat.txt"]
    ∧ derive_output_path "clips" "/render" ∉
        (mergeMain [⟨"clip_0001", ".mp4", true⟩] (fun _ => (1920, 1080))
          (fun _ => AttemptOutcome.done 1 ["e"]) "h264_nvenc" "libx264" none (1920, 1080)
          "/tmp/concat.txt").unlinked := by
  refine ⟨by decide, by decide, by decide⟩

/-! ## Lines of the concat manifest -/

theorem escapeSQ_no_nl (s : List Char) (hs : '\n' ∉ s) : '\n' ∉ escapeSQ s := by
  induction s with
  | nil => simp [escapeSQ]
  | cons c cs ih =>
    have hc : c ≠ '\n' := fun hcon => hs (hcon ▸ List.mem_cons_self c cs)
    have hcs : '\n' ∉ cs := fun hcon => hs (List.mem_cons_of_mem c hcon)
    by_cases hq : c = sqc
    · simp only [escapeSQ, if_pos hq]
      intro hmem
      rcases List.mem_cons.mp hmem with h1 | hmem
      · exact absurd h1 (by decide)
      rcases List.mem_cons.mp hmem with h1 | hmem
      · exact absurd h1 (by decide)
      rcases List.mem_cons.mp hmem with h1 | hmem
      · exact absurd h1 (by decide)
      rcases List.mem_cons.mp hmem with h1 | hmem
      · exact absurd h1 (by decide)
      exact ih hcs hmem
    · simp only [escapeSQ, if_neg hq]
      intro hmem
      rcases List.mem_cons.mp hmem with h1 | hmem
      · exact hc h1.symm
      exact ih hcs hmem

theorem linesOf_append (line rest : List Char) (h : '\n' ∉ line) :
    linesOf (line ++ '\n' :: rest) = line :: linesOf rest := by
  induction line with
  | nil => simp [linesOf]
  | cons c cs ih =>
    have hc : c ≠ '\n' := fun hcon => h (hcon ▸ List.mem_cons_self c cs)
    have hcs : '\n' ∉ cs := fun hcon => h (List.mem_cons_of_mem c hcon)
    have hrec := ih hcs
    simp only [List.cons_append, linesOf, if_neg hc, List.append_eq, hrec]

theorem concatLine_no_nl (v : String) (hv : '\n' ∉ v.data) :
    '\n' ∉ ("file ".data ++ [sqc] ++ escapeSQ v.data ++ [sqc]) := by
  intro hmem
  rcases List.mem_append.mp hmem with h1 | h2
  · rcases List.mem_append.mp h1 with h3 | h4
    · rcases List.mem_append.mp h3 with h5 | h6
      · exact absurd h5 (by decide)
      · exact absurd h6 (by decide)
    · exact escapeSQ_no_nl v.data hv h4
  · exact absurd h2 (by decide)

/-- C9: the concat manifest built by `build_concat_file` contains
exactly one line per catalogued video, in catalog order, each line of
the form `file '<path>'` with the path single-quoted and embedded
single quotes escaped by the quote-backslash-quote-quote convention
(provided, for "line" to be meaningful, that no path contains a
newline). -/
theorem c9_concat_manifest (videos : List String)
    (h : ∀ v ∈ videos, '\n' ∉ v.data) :
    linesOf (concat_file_content videos)
      = videos.map (fun v => "file ".data ++ [sqc] ++ escapeSQ v.data ++ [sqc])
    ∧ (build_concat_file videos).length = videos.length := by
  constructor
  · induction videos with
    | nil => simp [concat_file_content, build_concat_file, linesOf]
    | cons v vs ih =>
      have hv : '\n' ∉ v.data := h v (List.mem_cons_self v vs)
      have hvs : ∀ u ∈ vs, '\n' ∉ u.data := fun u hu => h u (List.mem_cons_of_mem v hu)
      have hcontent : concat_file_content (v :: vs)
          = ("file ".data ++ [sqc] ++ escapeSQ v.data ++ [sqc])
            ++ '\n' :: concat_file_content vs := by
        simp [concat_file_content, build_concat_file, concatLineChars, List.append_assoc]
      rw [hcontent, linesOf_append _ _ (concatLine_no_nl v hv), ih hvs]
      simp
  · simp [build_concat_file]

-- Witness for C9: a path containing a single quote and a plain path;
-- the two manifest lines, in order, with the quote escaped.
theorem c9_concat_manifest_witness :
    linesOf (concat_file_content [String.mk ['a', sqc, 'b'], "clip_0002.mp4"])
      = ["file ".data ++ [sqc] ++ ['a', sqc, '\\', sqc, sqc, 'b'] ++ [sqc],
         "file ".data ++ [sqc] ++ "clip_0002.mp4".data ++ [sqc]] := by
  have h := (c9_concat_manifest [String.mk ['a', sqc, 'b'], "clip_0002.mp4"] (by decide)).1
  exact h.trans (by decide)

/-! ## Sortedness and filtering of the catalog -/

theorem strLe_total : ∀ a b : List Char, strLe a b = true ∨ strLe b a = true := by
  intro a
  induction a with
  | nil => intro b; left; rfl
  | cons x xs ih =>
    intro b
    cases b with
    | nil => right; rfl
    | cons y ys =>
      by_cases hxy : x.toNat = y.toNat
      · have hyx : y.toNat = x.toNat := hxy.symm
        rcases ih ys with h | h
        · left
          simp only [strLe, if_pos hxy]
          exact h
        · right
          simp only [strLe, if_pos hyx]
          exact h
      · have hyx : ¬ y.toNat = x.toNat := fun hcon => hxy hcon.symm
        rcases Nat.lt_or_ge x.toNat y.toNat with h | h
        · left
          simp only [strLe, if_neg hxy, decide_eq_true_eq]
          exact h
        · right
          simp only [strLe, if_neg hyx, decide_eq_true_eq]
          omega

theorem strLe_trans : ∀ a b c : List Char,
    strLe a b = true → strLe b c = true → strLe a c = true := by
  intro a
  induction a with
  | nil => intro b c _ _; rfl
  | cons x xs ih =>
    intro b c hab hbc
    cases b with
    | nil => simp [strLe] at hab
    | cons y ys =>
      cases c with
      | nil => simp [strLe] at hbc
      | cons z zs =>
        by_cases hxy : x.toNat = y.toNat <;> by_cases hyz : y.toNat = z.toNat
        · have hxz : x.toNat = z.toNat := hxy.trans hyz
          simp only [strLe, if_pos hxy] at hab
          simp only [strLe, if_pos hyz] at hbc
          simp only [strLe, if_pos hxz]
          exact ih ys zs hab hbc
        · have hxz : ¬ x.toNat = z.toNat := by omega
          simp only [strLe, if_neg hyz, decide_eq_true_eq] at hbc
          simp only [strLe, if_neg hxz, decide_eq_true_eq]
          omega
        · have hxz : ¬ x.toNat = z.toNat := by omega
          simp only [strLe, if_neg hxy, decide_eq_true_eq] at hab
          simp only [strLe, if_neg hxz, decide_eq_true_eq]
          omega
        · simp only [strLe, if_neg hxy, decide_eq_true_eq] at hab
          simp only [strLe, if_neg hyz, decide_eq_true_eq] at hbc
          have hxz : ¬ x.toNat = z.toNat := by omega
          simp only [strLe, if_neg hxz, decide_eq_true_eq]
          omega

instance : IsTotal (Nat × Entry) pairKeyLe := ⟨by
  intro p q
  unfold pairKeyLe
  rcases Nat.lt_trichotomy p.1 q.1 with h | h | h
  · left; left; exact h
  · rcases strLe_total p.2.name.data q.2.name.data with hs | hs
    · left; right; exact ⟨h, hs⟩
    · right; right; exact ⟨h.symm, hs⟩
  · right; left; exact h⟩

instance : IsTrans (Nat × Entry) pairKeyLe := ⟨by
  intro p q r hpq hqr
  unfold pairKeyLe at *
  rcases hpq with h1 | ⟨h1e, h1s⟩ <;> rcases hqr with h2 | ⟨h2e, h2s⟩
  · left; omega
  · left; omega
  · left; omega
  · right; exact ⟨h1e.trans h2e, strLe_trans _ _ _ h1s h2s⟩⟩

/-- The sequence tag an entry sorts by (0 only for untagged entries,
which never reach the sort). -/
def seqTagOf (e : Entry) : Nat := (extract_sequence_number e.stem).getD 0

/-- The (sequence tag, filename) sort order on catalogued entries. -/
def entryKeyLe (a b : Entry) : Prop :=
  seqTagOf a < seqTagOf b ∨ (seqTagOf a = seqTagOf b ∧ strLe a.name.data b.name.data = true)

theorem catalogStep_some (e : Entry) (p : Nat × Entry)
    (h : catalogStep e = some p) :
    p.2 = e ∧ extract_sequence_number e.stem = some p.1 := by
  unfold catalogStep at h
  cases h1 : e.isFile
  · rw [h1] at h; simp at h
  · rw [h1] at h
    cases h2 : VIDEO_EXTENSIONS.contains (lowerStr e.ext)
    · rw [h2] at h; simp at h
    · rw [h2] at h
      cases hx : extract_sequence_number e.stem
      · rw [hx] at h; simp at h
      · rw [hx] at h
        simp at h
        rw [← h]
        exact ⟨rfl, rfl⟩

theorem map_snd_filterMap_catalogStep : ∀ l : List Entry,
    (l.filterMap catalogStep).map (fun p => p.2)
      = l.filter (fun e => e.isFile && VIDEO_EXTENSIONS.contains (lowerStr e.ext)
          && (extract_sequence_number e.stem).isSome) := by
  intro l
  induction l with
  | nil => rfl
  | cons e es ih =>
    rw [List.filterMap_cons, List.filter_cons]
    cases h1 : e.isFile
    · simp only [catalogStep, h1, Bool.false_eq_true, if_false, Bool.false_and]
      simp [ih]
    · cases h2 : VIDEO_EXTENSIONS.contains (lowerStr e.ext)
      · simp only [catalogStep, h1, h2, Bool.false_eq_true, if_false, if_true,
          Bool.true_and, Bool.false_and]
        simp [ih]
      · cases hx : extract_sequence_number e.stem
        · simp only [catalogStep, h1, h2, hx, if_true, Bool.true_and, Option.isSome_none]
          simp [ih]
        · simp only [catalogStep, h1, h2, hx, if_true, Bool.true_and, Option.isSome_some]
          simp [ih]

/-- C10: for every folder, `find_numbered_videos` returns its files
sorted by (sequence tag ascending, filename ascending); every returned
file has a recognizable sequence tag (taken by
`extract_sequence_number` from the last regex match in the stem); and
the result is exactly — up to the sort — the entries surviving the
is-file, extension and tag filters, so untagged files are silently
excluded rather than reported. -/
theorem c10_catalog (entries : List Entry) :
    (∀ e ∈ find_numbered_videos entries, (extract_sequence_number e.stem).isSome = true)
    ∧ List.Pairwise entryKeyLe (find_numbered_videos entries)
    ∧ (find_numbered_videos entries).Perm
        (entries.filter (fun e => e.isFile && VIDEO_EXTENSIONS.contains (lowerStr e.ext)
          && (extract_sequence_number e.stem).isSome)) := by
  have hfnv : find_numbered_videos entries
      = (List.insertionSort pairKeyLe
          ((List.insertionSort iterOrder entries).filterMap catalogStep)).map
            (fun p => p.2) := rfl
  set ordered := List.insertionSort iterOrder entries with hord
  set tagged := ordered.filterMap catalogStep with htag
  set sortedT := List.insertionSort pairKeyLe tagged with hst
  have hmemT : ∀ p ∈ sortedT, extract_sequence_number p.2.stem = some p.1 := by
    intro p hp
    have hp2 : p ∈ tagged := (List.perm_insertionSort pairKeyLe tagged).mem_iff.mp hp
    obtain ⟨e, he, hce⟩ := List.mem_filterMap.mp hp2
    obtain ⟨hpe, hx⟩ := catalogStep_some e p hce
    rw [hpe]
    exact hx
  refine ⟨?_, ?_, ?_⟩
  · intro e he
    rw [hfnv] at he
    obtain ⟨p, hp, hpe⟩ := List.mem_map.mp he
    have hx := hmemT p hp
    rw [hpe] at hx
    simp [hx]
  · rw [hfnv, List.pairwise_map]
    have hsorted : List.Pairwise pairKeyLe sortedT :=
      List.sorted_insertionSort pairKeyLe tagged
    refine List.Pairwise.imp_of_mem ?_ hsorted
    intro p q hp hq hpq
    have hxp := hmemT p hp
    have hxq := hmemT q hq
    unfold entryKeyLe seqTagOf
    rw [hxp, hxq]
    simpa [pairKeyLe] using hpq
  · rw [hfnv]
    have h1 : (sortedT.map (fun p => p.2)).Perm (tagged.map (fun p => p.2)) :=
      (List.perm_insertionSort pairKeyLe tagged).map (fun p => p.2)
    have h2 := map_snd_filterMap_catalogStep ordered
    have h3 : (ordered.filter (fun e => e.isFile
          && VIDEO_EXTENSIONS.contains (lowerStr e.ext)
          && (extract_sequence_number e.stem).isSome)).Perm
        (entries.filter (fun e => e.isFile
          && VIDEO_EXTENSIONS.contains (lowerStr e.ext)
          && (extract_sequence_number e.stem).isSome)) :=
      (List.perm_insertionSort iterOrder entries).filter _
    rw [h2] at h1
    exact h1.trans h3
